import Mathlib

/-! Verification of the HackathonIA summary service.

This file gives a shallow embedding of the clustering / aggregation engine of
`src/application/summary_service.py` and of the repository helpers in
`src/infraestructure/jira_repository.py`, and proves or refutes the claims of
the specification against it.

Modelling conventions:
* Python strings are embedded as `List Char` (`Str`); `str.strip()` is `strTrim`,
  `str.lower()` is `strToLower`, lexicographic string comparison is `strLeb`
  (code-point order, as in Python and in pandas string comparison).
* Python dictionaries holding CSV rows or Chroma metadata are association lists
  `List (Str × Str)`; `dict.get` is `rget` (first matching key, `none` when
  absent).
* Distances, timestamps (in seconds) and hour totals are rationals `ℚ`
  (exact stand-ins for the floats of the code; the claims under check are
  order/structure claims, not rounding claims).
* `pd.to_datetime(..., errors="coerce")` is an abstract parameter
  `parseTs : Str → Option ℚ` (seconds), and the date extraction
  `.dt.date.astype("string")` is `parseDate : Str → Option Str`; `none` models
  `NaT`/`<NA>`.
* The embedding store (Chroma collection) is a `Store`: the identifier list,
  the nearest-neighbour query for a seed's embedding (the code queries by
  `embeddings_map[seed_id]`, a function of the seed id), and per-id metadata.
* Python `try/except` around repository calls is modelled by repository
  operations returning `Except Unit _`.
* The `while unclustered_ids:` loop removes at least one identifier (the seed)
  per iteration, so it is embedded as a fuel recursion with fuel equal to the
  initial pool size (`clusterLoopFuel`), which performs exactly the same
  iterations as the loop.
-/

namespace HackIA

/-- Python `str` as a list of characters. -/
abbrev Str := List Char

/-- The characters of a Lean string literal, used to write concrete values. -/
def strOf (s : String) : Str := s.data

/-- Whitespace test used by `strip()`. -/
def isWs (c : Char) : Bool := c.isWhitespace

/-- Python `str.strip()`: drop whitespace from both ends. -/
def strTrim (s : Str) : Str := ((s.dropWhile isWs).reverse.dropWhile isWs).reverse

/-- Python `str.lower()` (ASCII case folding, enough for the data at hand). -/
def strToLower (s : Str) : Str := s.map Char.toLower

/-- Lexicographic `≤` on strings by code point, as in Python / pandas. -/
def strLeb : Str → Str → Bool
  | [], _ => true
  | _ :: _, [] => false
  | a :: as, b :: bs =>
      if a.toNat < b.toNat then true
      else if b.toNat < a.toNat then false
      else strLeb as bs

/-- Identifiers of the embedding store / CSV index. -/
abbrev ItemId := Str

/-- A CSV row: a Python dict from column name to string value. -/
abbrev Row := List (Str × Str)

/-- A Chroma metadata mapping, same shape as a row. -/
abbrev Metadata := List (Str × Str)

/-- Python `dict.get`: value of the first matching key, `none` when absent. -/
def rget (r : Row) (k : Str) : Option Str :=
  (r.find? (fun p => decide (p.1 = k))).map Prod.snd

/-- Python `x or y` on optional strings: `x` when it is a non-empty string,
otherwise `y` (both `None` and `""` are falsy). -/
def pyOr (x y : Option Str) : Option Str :=
  match x with
  | some s => if s = [] then y else some s
  | none => y

/-- Column name `"Criado"` (creation timestamp). -/
def kCriado : Str := strOf "Criado"

/-- Column name `"Resolvido"` (resolution timestamp). -/
def kResolvido : Str := strOf "Resolvido"

/-- The hour contribution of one row in `JiraCsvRepository.compute_total_hours`:
`max(resolution - creation, 0) / 3600`, defined only when both timestamps
parse. -/
def rowHours (parseTs : Str → Option ℚ) (r : Row) : Option ℚ :=
  match (rget r kCriado).bind parseTs, (rget r kResolvido).bind parseTs with
  | some c, some v => some (max (v - c) 0 / 3600)
  | _, _ => none

/-- `JiraCsvRepository.compute_total_hours`: fold over the rows, adding
`max(delta.total_seconds(), 0) / 3600` for each row whose `Criado` and
`Resolvido` both parse, skipping the others. -/
def compute_total_hours (parseTs : Str → Option ℚ) (rows : List Row) : ℚ :=
  rows.foldl (fun acc r =>
    match rowHours parseTs r with
    | some h => acc + h
    | none => acc) 0

lemma rowHours_nonneg (parseTs : Str → Option ℚ) (r : Row) {q : ℚ}
    (h : rowHours parseTs r = some q) : 0 ≤ q := by
  unfold rowHours at h
  rcases hc : (rget r kCriado).bind parseTs with _ | c <;>
    rcases hv : (rget r kResolvido).bind parseTs with _ | v <;>
      rw [hc, hv] at h <;> simp at h
  subst h
  exact div_nonneg (le_max_right _ _) (by norm_num)

lemma compute_total_hours_foldl (parseTs : Str → Option ℚ) (rows : List Row) :
    ∀ a : ℚ,
      rows.foldl (fun acc r =>
        match rowHours parseTs r with
        | some h => acc + h
        | none => acc) a
      = a + (rows.filterMap (rowHours parseTs)).sum := by
  induction rows with
  | nil => intro a; simp
  | cons r rs ih =>
      intro a
      rcases h : rowHours parseTs r with _ | q
      · simp only [List.foldl_cons, h, List.filterMap_cons]
        exact ih a
      · simp only [List.foldl_cons, h, List.filterMap_cons, List.sum_cons]
        rw [ih (a + q)]
        ring

/-- C5. `compute_total_hours` equals the sum, over exactly those rows whose
`Criado` and `Resolvido` both parse, of `max(resolution − creation, 0)` in
hours (rows with a missing or unparseable timestamp contribute nothing); the
result is never negative; and the total over a concatenation of two row lists
is the sum of the totals of the parts (additivity over any disjoint
partition). -/
theorem compute_total_hours_spec (parseTs : Str → Option ℚ) :
    (∀ rows : List Row,
        compute_total_hours parseTs rows = (rows.filterMap (rowHours parseTs)).sum) ∧
    (∀ rows : List Row, 0 ≤ compute_total_hours parseTs rows) ∧
    (∀ l₁ l₂ : List Row,
        compute_total_hours parseTs (l₁ ++ l₂)
          = compute_total_hours parseTs l₁ + compute_total_hours parseTs l₂) := by
  have hsum : ∀ rows : List Row,
      compute_total_hours parseTs rows = (rows.filterMap (rowHours parseTs)).sum := by
    intro rows
    unfold compute_total_hours
    rw [compute_total_hours_foldl]
    ring
  refine ⟨hsum, ?_, ?_⟩
  · intro rows
    rw [hsum]
    refine List.sum_nonneg ?_
    intro q hq
    rcases List.mem_filterMap.mp hq with ⟨r, _, hr⟩
    exact rowHours_nonneg parseTs r hr
  · intro l₁ l₂
    rw [hsum, hsum, hsum, List.filterMap_append, List.sum_append]

/-! Section: The clustering pass of `SummaryReportService.generate_cluster_report` -/

/-- One step of the neighbour loop
(`for neighbor_id, distance in zip(neighbor_ids, distances): ...`): the state
is `(current_cluster, unclustered_ids)`; a neighbour still present in the pool
whose distance is `≤ threshold` is appended to the cluster and removed from
the pool, otherwise the state is unchanged. -/
def absorb (t : ℚ) (s : List ItemId × List ItemId) (nd : ItemId × ℚ) :
    List ItemId × List ItemId :=
  if nd.1 ∈ s.2 ∧ nd.2 ≤ t then (s.1 ++ [nd.1], s.2.erase nd.1) else s

/-- Formation of one seed's cluster: start from `{seed}` (the seed has already
been removed from the pool) and run the neighbour loop over the query
result. Returns the cluster and the remaining pool. -/
def expandCluster (t : ℚ) (ns : List (ItemId × ℚ)) (seed : ItemId)
    (pool : List ItemId) : List ItemId × List ItemId :=
  ns.foldl (absorb t) ([seed], pool)

lemma absorb_snd_length (t : ℚ) (s : List ItemId × List ItemId) (nd : ItemId × ℚ) :
    (absorb t s nd).2.length ≤ s.2.length := by
  unfold absorb
  split
  · exact (List.erase_sublist _ _).length_le
  · exact le_rfl

lemma foldl_absorb_snd_length (t : ℚ) (ns : List (ItemId × ℚ)) :
    ∀ s : List ItemId × List ItemId, (ns.foldl (absorb t) s).2.length ≤ s.2.length := by
  induction ns with
  | nil => intro s; exact le_rfl
  | cons nd ns ih =>
      intro s
      exact le_trans (ih (absorb t s nd)) (absorb_snd_length t s nd)

lemma expandCluster_pool_length (t : ℚ) (ns : List (ItemId × ℚ)) (seed : ItemId)
    (pool : List ItemId) : (expandCluster t ns seed pool).2.length ≤ pool.length :=
  foldl_absorb_snd_length t ns ([seed], pool)

/-- The `while unclustered_ids:` loop, as a fuel recursion: take the next
identifier of the pool as seed, form its cluster with `expandCluster`, and
continue on the remaining pool. Each iteration consumes at least the seed, so
fuel equal to the initial pool size performs exactly the iterations of the
loop. Returns every cluster attempt, in seed order (the size filter of the
code is applied afterwards by `retainedClusters`). -/
def clusterLoopFuel (t : ℚ) (q : ItemId → List (ItemId × ℚ)) :
    ℕ → List ItemId → List (List ItemId)
  | _, [] => []
  | 0, _ :: _ => []
  | fuel + 1, seed :: rest =>
      (expandCluster t (q seed) seed rest).1 ::
        clusterLoopFuel t q fuel (expandCluster t (q seed) seed rest).2

/-- All cluster attempts of one run of the clustering pass over `ids`. -/
def clusterAttempts (t : ℚ) (q : ItemId → List (ItemId × ℚ)) (ids : List ItemId) :
    List (List ItemId) :=
  clusterLoopFuel t q ids.length ids

/-- The clusters kept by `if len(current_cluster) >= min_cluster_size`. -/
def retainedClusters (minSize : ℕ) (t : ℚ) (q : ItemId → List (ItemId × ℚ))
    (ids : List ItemId) : List (List ItemId) :=
  (clusterAttempts t q ids).filter (fun c => decide (minSize ≤ c.length))

lemma perm_cons_erase_of_mem {α : Type} [BEq α] [LawfulBEq α] {a : α} :
    ∀ {l : List α}, a ∈ l → l.Perm (a :: l.erase a) := by
  intro l
  induction l with
  | nil => intro h; cases h
  | cons b l ih =>
      intro h
      by_cases hba : b == a
      · have hb : b = a := by simpa using hba
        subst hb
        rw [List.erase_cons_head]
      · rw [List.erase_cons_tail (by simpa using hba)]
        have hal : a ∈ l := by
          rcases List.mem_cons.mp h with h1 | h1
          · exact absurd (by simp [h1] : (b == a) = true) hba
          · exact h1
        exact ((ih hal).cons b).trans (List.Perm.swap a b _)

lemma absorb_append_perm (t : ℚ) (s : List ItemId × List ItemId) (nd : ItemId × ℚ) :
    ((absorb t s nd).1 ++ (absorb t s nd).2).Perm (s.1 ++ s.2) := by
  unfold absorb
  split
  · next h =>
      show ((s.1 ++ [nd.1]) ++ s.2.erase nd.1).Perm (s.1 ++ s.2)
      have h1 : (s.1 ++ [nd.1]) ++ s.2.erase nd.1 = s.1 ++ (nd.1 :: s.2.erase nd.1) := by
        simp
      rw [h1]
      exact List.Perm.append_left s.1 (perm_cons_erase_of_mem h.1).symm
  · exact List.Perm.refl _

lemma foldl_absorb_append_perm (t : ℚ) (ns : List (ItemId × ℚ)) :
    ∀ s : List ItemId × List ItemId,
      ((ns.foldl (absorb t) s).1 ++ (ns.foldl (absorb t) s).2).Perm (s.1 ++ s.2) := by
  induction ns with
  | nil => intro s; exact List.Perm.refl _
  | cons nd ns ih =>
      intro s
      exact (ih (absorb t s nd)).trans (absorb_append_perm t s nd)

lemma expandCluster_append_perm (t : ℚ) (ns : List (ItemId × ℚ)) (seed : ItemId)
    (pool : List ItemId) :
    ((expandCluster t ns seed pool).1 ++ (expandCluster t ns seed pool).2).Perm
      (seed :: pool) :=
  foldl_absorb_append_perm t ns ([seed], pool)

lemma clusterLoopFuel_flatten_perm (t : ℚ) (q : ItemId → List (ItemId × ℚ)) :
    ∀ (fuel : ℕ) (ids : List ItemId), ids.length ≤ fuel →
      ((clusterLoopFuel t q fuel ids).flatten).Perm ids := by
  intro fuel
  induction fuel with
  | zero =>
      intro ids h
      have hnil : ids = [] := List.eq_nil_of_length_eq_zero (Nat.le_zero.mp h)
      subst hnil
      simp [clusterLoopFuel]
  | succ n ih =>
      intro ids h
      cases ids with
      | nil => simp [clusterLoopFuel]
      | cons seed rest =>
          have hlen : (expandCluster t (q seed) seed rest).2.length ≤ n :=
            le_trans (expandCluster_pool_length t (q seed) seed rest)
              (Nat.succ_le_succ_iff.mp (by simpa using h))
          simp only [clusterLoopFuel, List.flatten_cons]
          exact (List.Perm.append_left _ (ih _ hlen)).trans
            (expandCluster_append_perm t (q seed) seed rest)

/-- The cluster attempts of a run cover the input identifiers exactly: their
concatenation is a permutation of the input list. -/
lemma clusterAttempts_flatten_perm (t : ℚ) (q : ItemId → List (ItemId × ℚ))
    (ids : List ItemId) : ((clusterAttempts t q ids).flatten).Perm ids :=
  clusterLoopFuel_flatten_perm t q ids.length ids le_rfl

/-! Section: Membership characterisation of one seed's cluster formation -/

lemma mem_foldl_absorb_fst (t : ℚ) (ns : List (ItemId × ℚ)) :
    ∀ (c p : List ItemId) (x : ItemId),
      (x ∈ (ns.foldl (absorb t) (c, p)).1 ↔
        x ∈ c ∨ (x ∈ p ∧ ∃ d, (x, d) ∈ ns ∧ d ≤ t)) := by
  induction ns with
  | nil => intro c p x; simp
  | cons nd ns ih =>
      intro c p x
      rw [List.foldl_cons]
      by_cases h : nd.1 ∈ p ∧ nd.2 ≤ t
      · rw [show absorb t (c, p) nd = (c ++ [nd.1], p.erase nd.1) from by
          simp [absorb, h]]
        rw [ih]
        constructor
        · rintro (hc | ⟨hp, d, hd, hdt⟩)
          · rcases List.mem_append.mp hc with hc | hc
            · exact Or.inl hc
            · have hx : x = nd.1 := by simpa using hc
              subst hx
              exact Or.inr ⟨h.1, nd.2, by simp, h.2⟩
          · exact Or.inr ⟨List.erase_subset _ _ hp, d, List.mem_cons_of_mem _ hd, hdt⟩
        · rintro (hc | ⟨hp, d, hd, hdt⟩)
          · exact Or.inl (List.mem_append_left _ hc)
          · rcases List.mem_cons.mp hd with heq | hd'
            · have hx : x = nd.1 := by
                have := congrArg Prod.fst heq
                simpa using this
              subst hx
              exact Or.inl (List.mem_append_right _ (by simp))
            · by_cases hxn : x = nd.1
              · subst hxn
                exact Or.inl (List.mem_append_right _ (by simp))
              · exact Or.inr ⟨(List.mem_erase_of_ne hxn).mpr hp, d, hd', hdt⟩
      · rw [show absorb t (c, p) nd = (c, p) from by simp [absorb, h]]
        rw [ih]
        constructor
        · rintro (hc | ⟨hp, d, hd, hdt⟩)
          · exact Or.inl hc
          · exact Or.inr ⟨hp, d, List.mem_cons_of_mem _ hd, hdt⟩
        · rintro (hc | ⟨hp, d, hd, hdt⟩)
          · exact Or.inl hc
          · rcases List.mem_cons.mp hd with heq | hd'
            · exfalso
              have hx : x = nd.1 := by
                have := congrArg Prod.fst heq
                simpa using this
              have hdq : d = nd.2 := by
                have := congrArg Prod.snd heq
                simpa using this
              exact h ⟨hx ▸ hp, hdq ▸ hdt⟩
            · exact Or.inr ⟨hp, d, hd', hdt⟩

lemma mem_foldl_absorb_snd (t : ℚ) (ns : List (ItemId × ℚ)) :
    ∀ (c p : List ItemId) (x : ItemId), p.Nodup → (∀ y ∈ c, y ∉ p) →
      (x ∈ (ns.foldl (absorb t) (c, p)).2 ↔
        x ∈ p ∧ x ∉ (ns.foldl (absorb t) (c, p)).1) := by
  induction ns with
  | nil =>
      intro c p x _ hdisj
      simp only [List.foldl_nil]
      constructor
      · intro hp
        exact ⟨hp, fun hc => hdisj x hc hp⟩
      · exact fun h => h.1
  | cons nd ns ih =>
      intro c p x hnd hdisj
      rw [List.foldl_cons]
      by_cases h : nd.1 ∈ p ∧ nd.2 ≤ t
      · rw [show absorb t (c, p) nd = (c ++ [nd.1], p.erase nd.1) from by
          simp [absorb, h]]
        have hnd' : (p.erase nd.1).Nodup := hnd.erase _
        have hdisj' : ∀ y ∈ c ++ [nd.1], y ∉ p.erase nd.1 := by
          intro y hy
          rcases List.mem_append.mp hy with hy | hy
          · exact fun hmem => hdisj y hy (List.erase_subset _ _ hmem)
          · have hy1 : y = nd.1 := by simpa using hy
            subst hy1
            exact fun hmem => (hnd.mem_erase_iff.mp hmem).1 rfl
        rw [ih _ _ x hnd' hdisj']
        constructor
        · rintro ⟨hpe, hnf⟩
          exact ⟨List.erase_subset _ _ hpe, hnf⟩
        · rintro ⟨hp', hnf⟩
          refine ⟨?_, hnf⟩
          have hxn : x ≠ nd.1 := by
            intro hx
            apply hnf
            rw [mem_foldl_absorb_fst]
            exact Or.inl (List.mem_append_right _ (by simp [hx]))
          exact (List.mem_erase_of_ne hxn).mpr hp'
      · rw [show absorb t (c, p) nd = (c, p) from by simp [absorb, h]]
        exact ih c p x hnd hdisj

lemma countP_flatten_nodup {x : ItemId} :
    ∀ L : List (List ItemId), L.flatten.Nodup → x ∈ L.flatten →
      L.countP (fun c => decide (x ∈ c)) = 1 := by
  intro L
  induction L with
  | nil => intro _ h; simp at h
  | cons c L ih =>
      intro hnd hx
      rw [List.flatten_cons] at hnd hx
      rcases List.nodup_append.mp hnd with ⟨_, hL, hdisj⟩
      rw [List.countP_cons]
      by_cases hxc : x ∈ c
      · have hxL : x ∉ L.flatten := fun hmem => hdisj hxc hmem
        have hz : L.countP (fun c => decide (x ∈ c)) = 0 := by
          refine List.countP_eq_zero.mpr ?_
          intro a ha
          simp only [decide_eq_true_eq]
          exact fun hxa => hxL (List.mem_flatten.mpr ⟨a, ha, hxa⟩)
        simp [hz, hxc]
      · have hxL : x ∈ L.flatten := by
          rcases List.mem_append.mp hx with h1 | h1
          · exact absurd h1 hxc
          · exact h1
        simp [hxc, ih hL hxL]

/-- C1. On a duplicate-free input identifier list, the cluster attempts of
one clustering run form a partition: the retained clusters are pairwise
disjoint, every retained cluster has at least `min_cluster_size` elements, and
every input identifier belongs to exactly one cluster attempt (retained or
discarded). -/
theorem cluster_attempts_partition (t : ℚ) (q : ItemId → List (ItemId × ℚ))
    (minSize : ℕ) (ids : List ItemId) (hnd : ids.Nodup) :
    List.Pairwise List.Disjoint (retainedClusters minSize t q ids) ∧
    (∀ c ∈ retainedClusters minSize t q ids, minSize ≤ c.length) ∧
    (∀ x ∈ ids, (clusterAttempts t q ids).countP (fun c => decide (x ∈ c)) = 1) := by
  have hperm := clusterAttempts_flatten_perm t q ids
  have hflat : ((clusterAttempts t q ids).flatten).Nodup := hperm.symm.nodup hnd
  refine ⟨?_, ?_, ?_⟩
  · have hpw : List.Pairwise List.Disjoint (clusterAttempts t q ids) :=
      (List.nodup_flatten.mp hflat).2
    exact hpw.sublist (List.filter_sublist _)
  · intro c hc
    have := (List.mem_filter.mp hc).2
    simpa using this
  · intro x hx
    exact countP_flatten_nodup _ hflat (hperm.mem_iff.mpr hx)

/-- Neighbour lists of the C1 witness store: `a` and `b` are mutual
neighbours at distance 1, `c` is isolated. -/
def qC1 : ItemId → List (ItemId × ℚ)
  | ['a'] => [(strOf "a", 0), (strOf "b", 1)]
  | ['b'] => [(strOf "b", 0), (strOf "a", 1)]
  | _ => [(strOf "c", 0)]

/-- The identifier list of the C1 witness. -/
def idsC1 : List ItemId := [strOf "a", strOf "b", strOf "c"]

/-- Witness for C1 on a concrete three-item run with `min_cluster_size = 2`. -/
theorem cluster_attempts_partition_witness :
    idsC1.Nodup ∧
    (List.Pairwise List.Disjoint (retainedClusters 2 1 qC1 idsC1) ∧
      (∀ c ∈ retainedClusters 2 1 qC1 idsC1, 2 ≤ c.length) ∧
      (∀ x ∈ idsC1, (clusterAttempts 1 qC1 idsC1).countP (fun c => decide (x ∈ c)) = 1)) :=
  ⟨by decide, cluster_attempts_partition 1 qC1 2 idsC1 (by decide)⟩

/-- C2. Within one seed's cluster formation, an identifier ends up in the
cluster iff it is the seed itself or it is in the unclustered pool and the
neighbour list offers it at some distance `≤ distance_threshold` (the boundary
is inclusive: `distance ≤ threshold`); and an identifier remains in the pool
iff it was there and was not added to the cluster (added neighbours are
exactly the removed ones). -/
theorem neighbor_inclusion_rule (t : ℚ) (ns : List (ItemId × ℚ)) (seed : ItemId)
    (pool : List ItemId) (x : ItemId) (hnd : pool.Nodup) (hseed : seed ∉ pool) :
    (x ∈ (expandCluster t ns seed pool).1 ↔
      x = seed ∨ (x ∈ pool ∧ ∃ d, (x, d) ∈ ns ∧ d ≤ t)) ∧
    (x ∈ (expandCluster t ns seed pool).2 ↔
      x ∈ pool ∧ x ∉ (expandCluster t ns seed pool).1) := by
  constructor
  · have h := mem_foldl_absorb_fst t ns [seed] pool x
    simpa [expandCluster] using h
  · have hdisj : ∀ y ∈ ([seed] : List ItemId), y ∉ pool := by
      intro y hy
      have : y = seed := by simpa using hy
      subst this
      exact hseed
    have h := mem_foldl_absorb_snd t ns [seed] pool x hnd hdisj
    simpa [expandCluster] using h

/-- Witness for C2 at a concrete input, with the neighbour sitting exactly at
the threshold distance (inclusive boundary). -/
theorem neighbor_inclusion_rule_witness :
    ([strOf "b"] : List ItemId).Nodup ∧ strOf "a" ∉ ([strOf "b"] : List ItemId) ∧
    ((strOf "b" ∈ (expandCluster 1 [(strOf "b", 1)] (strOf "a") [strOf "b"]).1 ↔
        strOf "b" = strOf "a" ∨ (strOf "b" ∈ ([strOf "b"] : List ItemId) ∧
          ∃ d, (strOf "b", d) ∈ [(strOf "b", (1 : ℚ))] ∧ d ≤ 1)) ∧
      (strOf "b" ∈ (expandCluster 1 [(strOf "b", 1)] (strOf "a") [strOf "b"]).2 ↔
        strOf "b" ∈ ([strOf "b"] : List ItemId) ∧
          strOf "b" ∉ (expandCluster 1 [(strOf "b", 1)] (strOf "a") [strOf "b"]).1)) :=
  ⟨by decide, by decide,
    neighbor_inclusion_rule 1 [(strOf "b", 1)] (strOf "a") [strOf "b"] (strOf "b")
      (by decide) (by decide)⟩

/-- C7, amended. For a single seed's cluster-formation step — same pool,
same seed, same neighbour list — raising the distance threshold never removes
an included neighbour: the cluster at the smaller threshold is contained in
the cluster at the larger one. -/
theorem neighbor_inclusion_monotone (t₁ t₂ : ℚ) (ns : List (ItemId × ℚ))
    (seed : ItemId) (pool : List ItemId) (h : t₁ ≤ t₂) :
    ∀ x ∈ (expandCluster t₁ ns seed pool).1, x ∈ (expandCluster t₂ ns seed pool).1 := by
  intro x hx
  have h1 := (mem_foldl_absorb_fst t₁ ns [seed] pool x).mp hx
  refine (mem_foldl_absorb_fst t₂ ns [seed] pool x).mpr ?_
  rcases h1 with hc | ⟨hp, d, hd, hdt⟩
  · exact Or.inl hc
  · exact Or.inr ⟨hp, d, hd, le_trans hdt h⟩

/-- Witness for the amended C7 at a concrete input. -/
theorem neighbor_inclusion_monotone_witness :
    (1 : ℚ) ≤ 2 ∧
    (∀ x ∈ (expandCluster 1 [(strOf "b", 1)] (strOf "a") [strOf "b"]).1,
      x ∈ (expandCluster 2 [(strOf "b", 1)] (strOf "a") [strOf "b"]).1) :=
  ⟨by decide,
    neighbor_inclusion_monotone 1 2 [(strOf "b", 1)] (strOf "a") [strOf "b"] (by decide)⟩

/-- Neighbour lists of the three-item store refuting run-level threshold
monotonicity: `n` is at distance 2 from `a` and at distance 1 from `c`. -/
def qC7 : ItemId → List (ItemId × ℚ)
  | ['a'] => [(strOf "a", 0), (strOf "n", 2), (strOf "c", 10)]
  | ['c'] => [(strOf "c", 0), (strOf "n", 1), (strOf "a", 10)]
  | _ => [(strOf "n", 0), (strOf "a", 2), (strOf "c", 1)]

/-- The identifier list for the C7 counterexample, in store order. -/
def idsC7 : List ItemId := [strOf "a", strOf "c", strOf "n"]

/-- C7 counterexample. Two whole runs on the same store with thresholds
1 ≤ 2 and the same seed sequence (`a` then `c`, each attempt's seed is its
head): at threshold 1 the neighbour `n` is included in seed `c`'s cluster, at
threshold 2 it is not (it was absorbed by seed `a` first), so run-level
neighbour inclusion is not monotonic in `distance_threshold`. -/
theorem run_monotonicity_counterexample :
    clusterAttempts 1 qC7 idsC7 = [[strOf "a"], [strOf "c", strOf "n"]] ∧
    clusterAttempts 2 qC7 idsC7 = [[strOf "a", strOf "n"], [strOf "c"]] ∧
    (clusterAttempts 1 qC7 idsC7).map (fun c => c.headD []) = [strOf "a", strOf "c"] ∧
    (clusterAttempts 2 qC7 idsC7).map (fun c => c.headD []) = [strOf "a", strOf "c"] ∧
    (1 : ℚ) ≤ 2 ∧
    strOf "n" ∈ (clusterAttempts 1 qC7 idsC7).getD 1 [] ∧
    strOf "n" ∉ (clusterAttempts 2 qC7 idsC7).getD 1 [] := by
  refine ⟨by decide, by decide, by decide, by decide, by decide, by decide, by decide⟩

/-! Section: Windowed aggregation (creator counts, daily counts) -/

/-- A Python `collections.Counter` as an insertion-ordered association list:
increment the existing key, or append a new key with count 1. -/
def counterAdd (c : List (Str × ℕ)) (k : Str) : List (Str × ℕ) :=
  if c.any (fun p => decide (p.1 = k)) then
    c.map (fun p => if p.1 = k then (p.1, p.2 + 1) else p)
  else c ++ [(k, 1)]

/-- `row.get("Criador") or row.get("criador") or row.get("author")`. -/
def creatorOf (r : Row) : Option Str :=
  pyOr (rget r (strOf "Criador")) (pyOr (rget r (strOf "criador")) (rget r (strOf "author")))

/-- The creator-count aggregation of `generate_cluster_report`: count trimmed
creator strings (skipping rows whose creator is absent or blank after
trimming), then sort descending by count; Python's sort is stable, as is
`List.insertionSort`, so ties keep first-seen order. -/
def userOpenCountsOf (rows : List Row) : List (Str × ℕ) :=
  List.insertionSort (fun a b : Str × ℕ => b.2 ≤ a.2)
    (rows.foldl (fun cnt r =>
      match creatorOf r with
      | some s => if strTrim s = [] then cnt else counterAdd cnt (strTrim s)
      | none => cnt) [])

/-- The creation-day of a row: `__Criado_date` when present and non-empty,
otherwise the first 10 characters of a non-empty `Criado` value. -/
def dayOf (r : Row) : Option Str :=
  let fb : Option Str :=
    match rget r kCriado with
    | some v => if v = [] then none else some (v.take 10)
    | none => none
  match rget r (strOf "__Criado_date") with
  | some d => if d = [] then fb else some d
  | none => fb

/-- The daily-count aggregation of `generate_cluster_report`: count creation
days, then sort ascending by day string. -/
def dailyOpenCountsOf (rows : List Row) : List (Str × ℕ) :=
  List.insertionSort (fun a b : Str × ℕ => strLeb a.1 b.1 = true)
    (rows.foldl (fun cnt r =>
      match dayOf r with
      | some d => counterAdd cnt d
      | none => cnt) [])

/-- The rows of spec scenario B: creators `["Ana", "ana ", "Bob"]`. -/
def rowsC3 : List Row :=
  [[(strOf "Criador", strOf "Ana")],
   [(strOf "Criador", strOf "ana ")],
   [(strOf "Criador", strOf "Bob")]]

/-- C3 counterexample. On creators `["Ana", "ana ", "Bob"]` the code keys
the counter by the exact trimmed string — it never folds case — so it yields
three singleton counts, not the claimed `[("Ana", 2), ("Bob", 1)]`. -/
theorem creator_counts_counterexample :
    userOpenCountsOf rowsC3 = [(strOf "Ana", 1), (strOf "ana", 1), (strOf "Bob", 1)] ∧
    userOpenCountsOf rowsC3 ≠ [(strOf "Ana", 2), (strOf "Bob", 1)] := by
  refine ⟨by decide, by decide⟩

/-- C3, amended. The creator-count aggregation trims each creator string
and counts exact trimmed strings case-sensitively; on rows with creators
`["Ana", "ana ", "Bob"]` it yields the counts Ana ↦ 1, ana ↦ 1, Bob ↦ 1,
sorted descending by count with the all-tied counts kept in first-seen
order. -/
theorem creator_counts_scenario_amended :
    userOpenCountsOf rowsC3 = [(strOf "Ana", 1), (strOf "ana", 1), (strOf "Bob", 1)] := by
  decide

/-! Section: Group labeling (`_extract_summary`, `_extract_sample_summaries`,
`_extract_summaries_from_rows` and the sample assembly of the report loop) -/

/-- Summary-field aliases checked by the metadata extractors, in priority
order. -/
def summaryKeys : List Str :=
  [strOf "resumo", strOf "Resumo", strOf "summary", strOf "Summary", strOf "title"]

/-- Summary-field aliases checked on tabular rows, in priority order. -/
def rowSummaryKeys : List Str :=
  [strOf "Resumo", strOf "resumo", strOf "summary", strOf "Summary",
   strOf "Descrição", strOf "descricao"]

/-- Inner key loop of `_extract_summary` / `_extract_summaries_from_rows`:
the first key whose value is non-blank after trimming yields that trimmed
value. -/
def firstKeyHit : List Str → Metadata → Option Str
  | [], _ => none
  | k :: ks, m =>
      match rget m k with
      | some v => if strTrim v = [] then firstKeyHit ks m else some (strTrim v)
      | none => firstKeyHit ks m

/-- `SummaryReportService._extract_summary`: first non-blank summary value
across the metadata list, else the literal placeholder. -/
def extract_summary : List Metadata → Str
  | [] => strOf "Nome não encontrado"
  | m :: rest =>
      match firstKeyHit summaryKeys m with
      | some s => s
      | none => extract_summary rest

/-- Inner key loop of `_extract_sample_summaries`: the first key whose value
is non-blank after trimming **and** differs (lower-cased) from the normalised
skip value yields that trimmed value. -/
def samplePick (skipN : Str) : List Str → Metadata → Option Str
  | [], _ => none
  | k :: ks, m =>
      match rget m k with
      | some v =>
          if strTrim v ≠ [] ∧ strToLower (strTrim v) ≠ skipN then some (strTrim v)
          else samplePick skipN ks m
      | none => samplePick skipN ks m

/-- Shared shape of the two collector loops: append each picked value and stop
as soon as the accumulator reaches `limit` entries. -/
def collectLimited {α : Type} (pick : α → Option Str) (limit : ℕ) :
    List α → List Str → List Str
  | [], acc => acc
  | a :: rest, acc =>
      match pick a with
      | some s =>
          if limit ≤ (acc ++ [s]).length then acc ++ [s]
          else collectLimited pick limit rest (acc ++ [s])
      | none =>
          if limit ≤ acc.length then acc
          else collectLimited pick limit rest acc

/-- `SummaryReportService._extract_sample_summaries`. -/
def extract_sample_summaries (metadatas : List Metadata) (limit : ℕ) (skip : Str) :
    List Str :=
  collectLimited (samplePick (strToLower (strTrim skip)) summaryKeys) limit metadatas []

/-- `SummaryReportService._extract_summaries_from_rows`. -/
def extract_summaries_from_rows (rows : List Row) (limit : ℕ) : List Str :=
  collectLimited (firstKeyHit rowSummaryKeys) limit rows []

/-- The list-comprehension filter
`[s for s in csv_summaries if s and s.strip() and s.strip() != representative_summary]`. -/
def csvSampleFilter (csvS : List Str) (rep : Str) : List Str :=
  csvS.filter (fun s =>
    decide (s ≠ []) && decide (strTrim s ≠ []) && decide (strTrim s ≠ rep))

/-- `sample_summaries = (sample_from_meta + sample_from_csv)[:3]`. -/
def sampleSummariesOf (metadatas : List Metadata) (csvS : List Str) (rep : Str) :
    List Str :=
  (extract_sample_summaries metadatas 3 rep ++ csvSampleFilter csvS rep).take 3

lemma dropWhile_dropWhile_self (p : Char → Bool) :
    ∀ l : Str, (l.dropWhile p).dropWhile p = l.dropWhile p := by
  intro l
  induction l with
  | nil => simp
  | cons a l ih =>
      by_cases h : p a
      · simp [List.dropWhile_cons, h, ih]
      · simp [List.dropWhile_cons, h]

lemma dropWhile_eq_self_of_pre (p : Char → Bool) {l k : Str}
    (hl : l.dropWhile p = l) (hk : k <+: l) : k.dropWhile p = k := by
  cases k with
  | nil => simp
  | cons a k' =>
      rcases hk with ⟨t, ht⟩
      cases l with
      | nil => simp at ht
      | cons b l' =>
          have hab : a = b := by
            have := congrArg (fun xs => xs.headD ' ') ht
            simpa using this
          subst hab
          have hpa : ¬ p a := by
            intro hpa
            have h1 : (a :: l').dropWhile p = l'.dropWhile p := by
              simp [List.dropWhile_cons, hpa]
            have h2 : (l'.dropWhile p).length ≤ l'.length :=
              ((List.dropWhile_suffix p).sublist).length_le
            rw [hl] at h1
            have := congrArg List.length h1
            simp at this
            omega
          simp [List.dropWhile_cons, hpa]

lemma trimRight_isPre (l : Str) : (l.reverse.dropWhile isWs).reverse <+: l := by
  have h := List.reverse_prefix.mpr (List.dropWhile_suffix (l := l.reverse) isWs)
  rwa [List.reverse_reverse] at h

lemma trimRight_trimRight (l : Str) :
    (((l.reverse.dropWhile isWs).reverse).reverse.dropWhile isWs).reverse
      = (l.reverse.dropWhile isWs).reverse := by
  rw [List.reverse_reverse, dropWhile_dropWhile_self]

/-- `strip()` is idempotent. -/
lemma strTrim_strTrim (s : Str) : strTrim (strTrim s) = strTrim s := by
  unfold strTrim
  set t := s.dropWhile isWs with ht
  have htl : t.dropWhile isWs = t := dropWhile_dropWhile_self isWs s
  set u := (t.reverse.dropWhile isWs).reverse with hu
  have hupre : u <+: t := trimRight_isPre t
  have hul : u.dropWhile isWs = u := dropWhile_eq_self_of_pre isWs htl hupre
  rw [hul, hu, trimRight_trimRight]

lemma samplePick_some (skipN : Str) :
    ∀ (ks : List Str) (m : Metadata) (s : Str), samplePick skipN ks m = some s →
      s ≠ [] ∧ strToLower s ≠ skipN ∧ strTrim s = s := by
  intro ks
  induction ks with
  | nil => intro m s h; simp [samplePick] at h
  | cons k ks ih =>
      intro m s h
      rw [samplePick] at h
      rcases hv : rget m k with _ | v
      · simp only [hv] at h
        exact ih m s h
      · simp only [hv] at h
        by_cases hc : strTrim v ≠ [] ∧ strToLower (strTrim v) ≠ skipN
        · rw [if_pos hc] at h
          have hs : s = strTrim v := by
            injection h with h'
            exact h'.symm
          subst hs
          exact ⟨hc.1, hc.2, strTrim_strTrim v⟩
        · rw [if_neg hc] at h
          exact ih m s h

lemma firstKeyHit_some :
    ∀ (ks : List Str) (m : Metadata) (s : Str), firstKeyHit ks m = some s →
      s ≠ [] ∧ strTrim s = s := by
  intro ks
  induction ks with
  | nil => intro m s h; simp [firstKeyHit] at h
  | cons k ks ih =>
      intro m s h
      rw [firstKeyHit] at h
      rcases hv : rget m k with _ | v
      · simp only [hv] at h
        exact ih m s h
      · simp only [hv] at h
        by_cases hc : strTrim v = []
        · rw [if_pos hc] at h
          exact ih m s h
        · rw [if_neg hc] at h
          have hs : s = strTrim v := by
            injection h with h'
            exact h'.symm
          subst hs
          exact ⟨hc, strTrim_strTrim v⟩

lemma mem_collectLimited {α : Type} (pick : α → Option Str) (limit : ℕ) :
    ∀ (l : List α) (acc : List Str) (x : Str), x ∈ collectLimited pick limit l acc →
      x ∈ acc ∨ ∃ a ∈ l, pick a = some x := by
  intro l
  induction l with
  | nil => intro acc x h; exact Or.inl h
  | cons a rest ih =>
      intro acc x h
      rw [collectLimited] at h
      rcases hp : pick a with _ | s
      · simp only [hp] at h
        split at h
        · exact Or.inl h
        · rcases ih acc x h with h1 | ⟨b, hb, hbx⟩
          · exact Or.inl h1
          · exact Or.inr ⟨b, List.mem_cons_of_mem _ hb, hbx⟩
      · simp only [hp] at h
        have hmem : x ∈ acc ++ [s] → x ∈ acc ∨ ∃ b ∈ a :: rest, pick b = some x := by
          intro hx
          rcases List.mem_append.mp hx with h1 | h1
          · exact Or.inl h1
          · have : x = s := by simpa using h1
            subst this
            exact Or.inr ⟨a, List.mem_cons_self a rest, hp⟩
        split at h
        · exact hmem h
        · rcases ih _ x h with h1 | ⟨b, hb, hbx⟩
          · exact hmem h1
          · exact Or.inr ⟨b, List.mem_cons_of_mem _ hb, hbx⟩

/-- The metadata entries of the C4 counterexample: two summaries that differ
only by letter case. -/
def metasC4 : List Metadata :=
  [[(strOf "resumo", strOf "A")], [(strOf "resumo", strOf "a")]]

/-- The row-derived summaries of the C4 counterexample: one string that
matches the representative text except for case. -/
def csvC4 : List Str := [strOf "rep X"]

/-- C4 counterexample. With metadata summaries `"A"` and `"a"` and a
row-derived summary `"rep X"` against representative text `"Rep x"`, the
sample list is `["A", "a", "rep X"]`: it contains two entries equal up to
case (no deduplication is performed), and a row-derived entry that matches
the representative case-insensitively (row-derived entries are only filtered
by exact comparison). -/
theorem sample_summaries_counterexample :
    sampleSummariesOf metasC4 csvC4 (strOf "Rep x")
      = [strOf "A", strOf "a", strOf "rep X"] ∧
    strToLower (strOf "A") = strToLower (strOf "a") ∧
    strOf "A" ≠ strOf "a" ∧
    strToLower (strTrim (strOf "rep X")) = strToLower (strTrim (strOf "Rep x")) := by
  refine ⟨by decide, by decide, by decide, by decide⟩

/-- C4, amended. For every cluster, the sample list holds at most 3
strings and is a prefix of the metadata-derived samples followed by the
row-derived ones (metadata first); every metadata-derived sample is trimmed,
non-blank and differs case-insensitively from the trimmed representative
text; every row-derived sample is non-blank after trimming and differs from
the representative only under exact comparison. Duplicates are not removed. -/
theorem sample_summaries_amended (metadatas : List Metadata) (csvS : List Str)
    (rep : Str) :
    (sampleSummariesOf metadatas csvS rep).length ≤ 3 ∧
    sampleSummariesOf metadatas csvS rep
      <+: extract_sample_summaries metadatas 3 rep ++ csvSampleFilter csvS rep ∧
    (∀ s ∈ extract_sample_summaries metadatas 3 rep,
      strTrim s = s ∧ s ≠ [] ∧ strToLower s ≠ strToLower (strTrim rep)) ∧
    (∀ s ∈ csvSampleFilter csvS rep, strTrim s ≠ [] ∧ strTrim s ≠ rep) := by
  refine ⟨List.length_take_le _ _, List.take_prefix _ _, ?_, ?_⟩
  · intro s hs
    rcases mem_collectLimited _ _ _ _ _ hs with h1 | ⟨m, _, hm⟩
    · simp at h1
    · rcases samplePick_some _ _ _ _ hm with ⟨h2, h3, h4⟩
      exact ⟨h4, h2, h3⟩
  · intro s hs
    rcases List.mem_filter.mp hs with ⟨_, hcond⟩
    simp only [Bool.and_eq_true, decide_eq_true_eq] at hcond
    exact ⟨hcond.1.2, hcond.2⟩

/-! Section: The embedding store, the repository, and the full report -/

/-- The Chroma collection as seen by the service: the identifier list (with
embeddings and metadata), and the nearest-neighbour query for a seed. The code
queries by `embeddings_map[seed_id]`, so the query is a function of the seed
identifier. -/
structure Store where
  ids : List ItemId
  query : ItemId → List (ItemId × ℚ)
  metaOf : ItemId → Metadata

/-- The `JiraRepository` protocol as used by the service; `Except Unit`
models Python exceptions caught by the service's `try/except` blocks. -/
structure JiraRepoIface where
  filter_ids_by_date : List ItemId → Str × Str → Except Unit (List ItemId)
  get_rows_by_ids : List ItemId → Option (Str × Str) → Except Unit (List Row)
  compute_total_hours : List Row → Except Unit ℚ

/-- `SummaryServiceSettings` (the fields the claims depend on). -/
structure SummaryServiceSettings where
  distance_threshold : ℚ
  min_cluster_size : ℕ
  max_neighbors : ℕ
  max_clusters : ℕ

/-- `(data_inicio, data_fim) if data_inicio and data_fim else None`
(`None` and `""` are falsy). -/
def windowOf : Option Str → Option Str → Option (Str × Str)
  | some a, some b => if a ≠ [] ∧ b ≠ [] then some (a, b) else none
  | _, _ => none

/-- The identifier set fed to clustering and aggregation: when a window and a
repository are present, keep (in store order) the ids the repository's filter
returns; if the filter raises, silently keep the full set. -/
def effectiveIds (store : Store) (repo? : Option JiraRepoIface)
    (di df : Option Str) : List ItemId :=
  match windowOf di df, repo? with
  | some w, some repo =>
      match repo.filter_ids_by_date store.ids w with
      | .ok fs => store.ids.filter (fun i => decide (i ∈ fs))
      | .error _ => store.ids
  | _, _ => store.ids

/-- The three windowed aggregates of the report. -/
structure AggResult where
  userCounts : List (Str × ℕ)
  dailyCounts : List (Str × ℕ)
  hours : ℚ

/-- The aggregation block of `generate_cluster_report`: fetch all rows for the
effective ids (windowed), compute creator counts, daily counts and total
hours; on any repository failure fall back to empty/zero aggregates. -/
def aggregatesOf (store : Store) (repo? : Option JiraRepoIface)
    (di df : Option Str) : AggResult :=
  match repo? with
  | none => ⟨[], [], 0⟩
  | some repo =>
      match repo.get_rows_by_ids (effectiveIds store (some repo) di df) (windowOf di df) with
      | .error _ => ⟨[], [], 0⟩
      | .ok rows =>
          ⟨userOpenCountsOf rows, dailyOpenCountsOf rows,
            match repo.compute_total_hours rows with
            | .ok h => h
            | .error _ => 0⟩

/-- `clusters.sort(key=len, reverse=True)` followed by `[:max_clusters]`:
stable descending sort by cardinality, truncated. -/
def finalClusters (st : SummaryServiceSettings) (q : ItemId → List (ItemId × ℚ))
    (ids : List ItemId) : List (List ItemId) :=
  (List.insertionSort (fun a b : List ItemId => b.length ≤ a.length)
    (retainedClusters st.min_cluster_size st.distance_threshold q ids)).take
      st.max_clusters

/-- One entry of the report. -/
structure ClusterSummary where
  group_name : Str
  representative_summary : Str
  occurrences : ℕ
  sample_summaries : List Str
  total_hours : ℚ

/-- The body of the report loop for one retained cluster: representative text
from metadata with CSV fallback, sample texts, and the cluster's hour
total. -/
def labelCluster (store : Store) (repo? : Option JiraRepoIface)
    (di df : Option Str) (index : ℕ) (cluster : List ItemId) : ClusterSummary :=
  let metadatas := cluster.map store.metaOf
  let rep0 := extract_summary metadatas
  let rowsRes : Except Unit (List Row) :=
    match repo? with
    | some repo => repo.get_rows_by_ids cluster (windowOf di df)
    | none => .error ()
  let csvS : List Str :=
    match rowsRes with
    | .ok rows => extract_summaries_from_rows rows 5
    | .error _ => []
  let hours : ℚ :=
    match repo?, rowsRes with
    | some repo, .ok rows =>
        match repo.compute_total_hours rows with
        | .ok h => h
        | .error _ => 0
    | _, _ => 0
  let rep :=
    if (rep0 = [] ∨ rep0 = strOf "Nome não encontrado") ∧ csvS ≠ [] then
      csvS.headD rep0
    else rep0
  { group_name := strOf "Grupo " ++ (toString index).data
    representative_summary := rep
    occurrences := cluster.length
    sample_summaries := sampleSummariesOf metadatas csvS rep
    total_hours := hours }

/-- `for index, cluster_ids in enumerate(clusters[:max_clusters], start=1)`. -/
def buildEntries (store : Store) (repo? : Option JiraRepoIface)
    (di df : Option Str) : ℕ → List (List ItemId) → List ClusterSummary
  | _, [] => []
  | i, c :: cs =>
      labelCluster store repo? di df i c :: buildEntries store repo? di df (i + 1) cs

/-- The value returned by `generate_cluster_report`. -/
structure Report where
  entries : List ClusterSummary
  user_open_counts : List (Str × ℕ)
  daily_open_counts : List (Str × ℕ)
  window_total_hours : ℚ

/-- `SummaryReportService.generate_cluster_report`. -/
def generate_cluster_report (st : SummaryServiceSettings) (store : Store)
    (repo? : Option JiraRepoIface) (di df : Option Str) : Report :=
  if store.ids = [] then ⟨[], [], [], 0⟩
  else
    let agg := aggregatesOf store repo? di df
    ⟨buildEntries store repo? di df 1
        (finalClusters st store.query (effectiveIds store repo? di df)),
      agg.userCounts, agg.dailyCounts, agg.hours⟩

/-! Section: The concrete CSV repository (`JiraCsvRepository`) -/

/-- The derived `__Criado_date` of a row: the date string extracted from a
parseable `Criado` value (`none` models `NaT`/`<NA>`). -/
def rowDate (parseDate : Str → Option Str) (r : Row) : Option Str :=
  (rget r kCriado).bind parseDate

/-- The window mask `(__Criado_date >= start) & (__Criado_date <= end)`:
rows without a parseable creation date are excluded. -/
def inWindow (parseDate : Str → Option Str) (w : Str × Str) (r : Row) : Bool :=
  match rowDate parseDate r with
  | some d => strLeb w.1 d && strLeb d w.2
  | none => false

/-- The row as returned after the `__Criado_date` column has been added to the
dataframe. -/
def rowWithDate (parseDate : Str → Option Str) (r : Row) : Row :=
  match rowDate parseDate r with
  | some d => (strOf "__Criado_date", d) :: r
  | none => r

/-- `JiraCsvRepository.filter_ids_by_date`: the ids, in table order, of the
requested rows whose creation date lies in the inclusive window. -/
def filter_ids_by_date_impl (table : List (ItemId × Row))
    (parseDate : Str → Option Str) (ids : List ItemId) (w : Str × Str) :
    List ItemId :=
  (table.filter (fun p => decide (p.1 ∈ ids) && inWindow parseDate w p.2)).map
    Prod.fst

/-- `JiraCsvRepository.get_rows_by_ids`, keeping the index alongside each row
(the Python `to_dict(orient="records")` then drops the index, see
`csvRepo`). With a window, rows outside it are dropped and the derived
date column is present on the result. -/
def get_rows_entries (table : List (ItemId × Row)) (parseDate : Str → Option Str)
    (ids : List ItemId) (w : Option (Str × Str)) : List (ItemId × Row) :=
  match w with
  | some win =>
      (table.filter (fun p => decide (p.1 ∈ ids) && inWindow parseDate win p.2)).map
        (fun p => (p.1, rowWithDate parseDate p.2))
  | none => table.filter (fun p => decide (p.1 ∈ ids))

/-- `JiraCsvRepository` packaged behind the service-facing interface; its
operations are total (they return `.ok`). -/
def csvRepo (table : List (ItemId × Row)) (parseDate : Str → Option Str)
    (parseTs : Str → Option ℚ) : JiraRepoIface where
  filter_ids_by_date := fun ids w => .ok (filter_ids_by_date_impl table parseDate ids w)
  get_rows_by_ids := fun ids w => .ok ((get_rows_entries table parseDate ids w).map Prod.snd)
  compute_total_hours := fun rows => .ok (compute_total_hours parseTs rows)

lemma buildEntries_length (store : Store) (repo? : Option JiraRepoIface)
    (di df : Option Str) :
    ∀ (i : ℕ) (cs : List (List ItemId)),
      (buildEntries store repo? di df i cs).length = cs.length := by
  intro i cs
  induction cs generalizing i with
  | nil => rfl
  | cons c cs ih => simp [buildEntries, ih]

/-- C8. The cluster sequence of a run is sorted by cardinality in
descending order (each cluster is at least as large as the next), and the
report holds at most `max_clusters` entries. -/
theorem clusters_sorted_and_capped (st : SummaryServiceSettings) (store : Store)
    (repo? : Option JiraRepoIface) (di df : Option Str) :
    List.Pairwise (fun a b : List ItemId => b.length ≤ a.length)
      (finalClusters st store.query (effectiveIds store repo? di df)) ∧
    (generate_cluster_report st store repo? di df).entries.length ≤ st.max_clusters := by
  constructor
  · haveI : IsTotal (List ItemId) (fun a b => b.length ≤ a.length) :=
      ⟨fun a b => Nat.le_total b.length a.length⟩
    haveI : IsTrans (List ItemId) (fun a b => b.length ≤ a.length) :=
      ⟨fun _ _ _ h1 h2 => le_trans h2 h1⟩
    have hs := List.sorted_insertionSort (fun a b : List ItemId => b.length ≤ a.length)
      (retainedClusters st.min_cluster_size st.distance_threshold store.query
        (effectiveIds store repo? di df))
    exact hs.sublist (List.take_sublist _ _)
  · by_cases h : store.ids = []
    · simp [generate_cluster_report, h]
    · rw [generate_cluster_report, if_neg h]
      show (buildEntries store repo? di df 1 _).length ≤ st.max_clusters
      rw [buildEntries_length]
      exact List.length_take_le _ _

/-- C9. An empty embedding store is not an error: the report is empty
(no clusters, no creator counts, no daily counts, zero hours). -/
theorem empty_store_report (st : SummaryServiceSettings) (store : Store)
    (repo? : Option JiraRepoIface) (di df : Option Str) (h : store.ids = []) :
    generate_cluster_report st store repo? di df = ⟨[], [], [], 0⟩ := by
  rw [generate_cluster_report, if_pos h]

/-- A store with no items. -/
def emptyStore : Store := ⟨[], fun _ => [], fun _ => []⟩

/-- Witness for C9 on a concrete empty store. -/
theorem empty_store_report_witness :
    generate_cluster_report ⟨1, 3, 200, 20⟩ emptyStore none none none = ⟨[], [], [], 0⟩ :=
  empty_store_report ⟨1, 3, 200, 20⟩ emptyStore none none none rfl

/-- C10. When a window is supplied but the repository's id filter raises,
`generate_cluster_report` silently proceeds with the full unfiltered
identifier set (the `except Exception: pass` branch). -/
theorem filter_failure_unfiltered (store : Store) (repo : JiraRepoIface)
    (di df : Option Str) (w : Str × Str) (hw : windowOf di df = some w)
    (herr : repo.filter_ids_by_date store.ids w = .error ()) :
    effectiveIds store (some repo) di df = store.ids := by
  simp [effectiveIds, hw, herr]

/-- A repository whose date filter always raises. -/
def failRepo : JiraRepoIface :=
  ⟨fun _ _ => .error (), fun _ _ => .ok [], fun _ => .ok 0⟩

/-- The two-item store of the C10 witness: the out-of-window id `"2"` is at
distance 1 from the seed `"1"`. -/
def storeC10 : Store :=
  ⟨[strOf "1", strOf "2"],
   fun i =>
     if i = strOf "1" then [(strOf "1", 0), (strOf "2", 1)]
     else [(strOf "2", 0), (strOf "1", 1)],
   fun _ => []⟩

/-- Witness for C10: the filter raises, the full set is clustered, and the
out-of-window id `"2"` lands in a retained cluster. -/
theorem filter_failure_unfiltered_witness :
    effectiveIds storeC10 (some failRepo) (some (strOf "2024-01-01"))
        (some (strOf "2024-01-31")) = storeC10.ids ∧
    strOf "2" ∈ (finalClusters ⟨1, 2, 200, 20⟩ storeC10.query
        (effectiveIds storeC10 (some failRepo) (some (strOf "2024-01-01"))
          (some (strOf "2024-01-31")))).flatten :=
  ⟨filter_failure_unfiltered storeC10 failRepo (some (strOf "2024-01-01"))
      (some (strOf "2024-01-31")) (strOf "2024-01-01", strOf "2024-01-31")
      (by decide) rfl,
    by decide⟩

/-- C6. With a window supplied and the concrete CSV repository (whose
filter succeeds, returning `.ok`), an identifier all of whose table rows fall
outside the inclusive window (or have no parseable creation date) never
appears in a retained cluster, and none of its rows is among the rows fetched
for the creator/daily/hour aggregation. -/
theorem window_filter_excludes (st : SummaryServiceSettings) (store : Store)
    (table : List (ItemId × Row)) (parseDate : Str → Option Str)
    (parseTs : Str → Option ℚ) (a b : Str) (x : ItemId)
    (ha : a ≠ []) (hb : b ≠ [])
    (hx : ∀ p ∈ table, p.1 = x → inWindow parseDate (a, b) p.2 = false) :
    (∀ c ∈ finalClusters st store.query
        (effectiveIds store (some (csvRepo table parseDate parseTs)) (some a) (some b)),
      x ∉ c) ∧
    x ∉ (get_rows_entries table parseDate
        (effectiveIds store (some (csvRepo table parseDate parseTs)) (some a) (some b))
        (some (a, b))).map Prod.fst := by
  have hxf : ∀ ids : List ItemId,
      x ∉ filter_ids_by_date_impl table parseDate ids (a, b) := by
    intro ids hmem
    rcases List.mem_map.mp hmem with ⟨p, hp, hpx⟩
    rcases List.mem_filter.mp hp with ⟨hpt, hcond⟩
    simp only [Bool.and_eq_true] at hcond
    have := hx p hpt hpx
    rw [this] at hcond
    exact Bool.false_ne_true hcond.2
  have heff : effectiveIds store (some (csvRepo table parseDate parseTs))
      (some a) (some b)
      = store.ids.filter (fun i =>
          decide (i ∈ filter_ids_by_date_impl table parseDate store.ids (a, b))) := by
    simp [effectiveIds, windowOf, ha, hb, csvRepo]
  have hxeff : x ∉ effectiveIds store (some (csvRepo table parseDate parseTs))
      (some a) (some b) := by
    rw [heff]
    intro hmem
    rcases List.mem_filter.mp hmem with ⟨_, hcond⟩
    exact hxf store.ids (of_decide_eq_true hcond)
  constructor
  · intro c hc hxc
    have hc1 : c ∈ List.insertionSort (fun a b : List ItemId => b.length ≤ a.length)
        (retainedClusters st.min_cluster_size st.distance_threshold store.query
          (effectiveIds store (some (csvRepo table parseDate parseTs))
            (some a) (some b))) :=
      List.take_subset _ _ hc
    have hc2 := (List.perm_insertionSort
      (fun a b : List ItemId => b.length ≤ a.length) _).mem_iff.mp hc1
    have hc3 : c ∈ clusterAttempts st.distance_threshold store.query
        (effectiveIds store (some (csvRepo table parseDate parseTs))
          (some a) (some b)) :=
      (List.mem_filter.mp hc2).1
    have hxflat := List.mem_flatten.mpr ⟨c, hc3, hxc⟩
    exact hxeff ((clusterAttempts_flatten_perm _ _ _).mem_iff.mp hxflat)
  · intro hmem
    rcases List.mem_map.mp hmem with ⟨p, hp, hpx⟩
    simp only [get_rows_entries] at hp
    rcases List.mem_map.mp hp with ⟨p0, hp0, hp0p⟩
    rcases List.mem_filter.mp hp0 with ⟨hpt, hcond⟩
    simp only [Bool.and_eq_true] at hcond
    have hfst : p0.1 = x := by
      have h1 := congrArg Prod.fst hp0p
      simp only [] at h1
      rw [h1, hpx]
    have := hx p0 hpt hfst
    rw [this] at hcond
    exact Bool.false_ne_true hcond.2

/-- The CSV table of the C6 witness: id `"1"` created inside the January 2024
window, id `"2"` created on 2024-02-01, outside it. -/
def tableC6 : List (ItemId × Row) :=
  [(strOf "1", [(strOf "Criado", strOf "2024-01-10 08:00")]),
   (strOf "2", [(strOf "Criado", strOf "2024-02-01 09:00")])]

/-- Date extraction of the C6 witness: the first 10 characters
(`YYYY-MM-DD`). -/
def parseDateC6 : Str → Option Str := fun v => some (v.take 10)

/-- Timestamp parser of the C6 witness (unused by the conclusion). -/
def parseTsC6 : Str → Option ℚ := fun _ => none

/-- The store of the C6 witness. -/
def storeC6 : Store := ⟨[strOf "1", strOf "2"], fun _ => [], fun _ => []⟩

/-- Witness for C6 at the window `["2024-01-01", "2024-01-31"]` of spec
scenario C, with id `"2"` created `2024-02-01`. -/
theorem window_filter_excludes_witness :
    (∀ c ∈ finalClusters ⟨1, 1, 200, 20⟩ storeC6.query
        (effectiveIds storeC6 (some (csvRepo tableC6 parseDateC6 parseTsC6))
          (some (strOf "2024-01-01")) (some (strOf "2024-01-31"))),
      strOf "2" ∉ c) ∧
    strOf "2" ∉ (get_rows_entries tableC6 parseDateC6
        (effectiveIds storeC6 (some (csvRepo tableC6 parseDateC6 parseTsC6))
          (some (strOf "2024-01-01")) (some (strOf "2024-01-31")))
        (some (strOf "2024-01-01", strOf "2024-01-31"))).map Prod.fst :=
  window_filter_excludes ⟨1, 1, 200, 20⟩ storeC6 tableC6 parseDateC6 parseTsC6
    (strOf "2024-01-01") (strOf "2024-01-31") (strOf "2")
    (by decide) (by decide) (by decide)

end HackIA
